import Mathlib

/-!
Shallow embedding of the RealTimeChat backend (Node.js):
- `backend/config.js`    — constants
- `backend/rateLimiter.js` — sliding-window rate limiter
- `backend/clients.js`   — connection registry (ClientsManager)
- `backend/chatController.js` — message router, join/leave, delivery queue

Strings are modelled as sequences of Unicode scalar values (`List Char`);
all characters relevant to validation and sanitization are in the Basic
Multilingual Plane, where the JavaScript UTF-16 `length` coincides with the
number of scalars. `Date.now()` timestamps are modelled as `Int`
milliseconds. The JavaScript `Map` (insertion ordered, unique keys) is
modelled as an association list with first-match lookup.
-/

namespace RealTimeChat

/-- Decidable equality for the `Except` results used by the embedded
validators. -/
instance {ε α : Type} [DecidableEq ε] [DecidableEq α] : DecidableEq (Except ε α) := fun a b =>
  match a, b with
  | .error e, .error f => decidable_of_iff (e = f) (by simp)
  | .ok x, .ok y => decidable_of_iff (x = y) (by simp)
  | .error _, .ok _ => isFalse (by simp)
  | .ok _, .error _ => isFalse (by simp)

/-! ## Configuration (backend/config.js) -/

/-- MAX_MESSAGES_PER_MINUTE from config.js. -/
def MAX_MESSAGES_PER_MINUTE : Nat := 10

/-- RATE_LIMIT_WINDOW from config.js, in milliseconds. -/
def RATE_LIMIT_WINDOW : Int := 60000

/-- MESSAGE_DELAY from config.js, in milliseconds. -/
def MESSAGE_DELAY : Nat := 100

/-- MAX_MESSAGE_LENGTH from config.js. -/
def MAX_MESSAGE_LENGTH : Nat := 500

/-- MIN_MESSAGE_LENGTH from config.js. -/
def MIN_MESSAGE_LENGTH : Nat := 1

/-- MAX_USERNAME_LENGTH from config.js. -/
def MAX_USERNAME_LENGTH : Nat := 30

/-- MIN_USERNAME_LENGTH from config.js. -/
def MIN_USERNAME_LENGTH : Nat := 2

/-! ## JavaScript string primitives -/

/-- Membership in the ECMAScript WhiteSpace and LineTerminator classes:
the character set matched by the regex class backslash-s and removed by
`String.prototype.trim`. -/
def isJsWhitespace (c : Char) : Bool :=
  let n := c.toNat
  n == 9 || n == 10 || n == 11 || n == 12 || n == 13 || n == 32 || n == 160 ||
  n == 0x1680 || (0x2000 ≤ n && n ≤ 0x200A) || n == 0x2028 || n == 0x2029 ||
  n == 0x202F || n == 0x205F || n == 0x3000 || n == 0xFEFF

/-- Character-list version of `String.prototype.trim`. -/
def trimL (l : List Char) : List Char :=
  ((l.dropWhile isJsWhitespace).reverse.dropWhile isJsWhitespace).reverse

/-- Model of `String.prototype.trim`. -/
def trimJS (s : String) : String := ⟨trimL s.data⟩

/-! ## Username validation (chatController.js validateUsername) -/

/-- Exactly the accented characters listed in the username regex of
chatController.js: á é í ó ú Á É Í Ó Ú ñ Ñ. -/
def accentedChars : List Char := ['á', 'é', 'í', 'ó', 'ú', 'Á', 'É', 'Í', 'Ó', 'Ú', 'ñ', 'Ñ']

/-- Membership in the character class of the username regex
`[a-zA-Z0-9áéíóúÁÉÍÓÚñÑ \t ... _-]` in chatController.js (the whitespace
part is the regex class backslash-s). -/
def validChar (c : Char) : Bool :=
  let n := c.toNat
  (97 ≤ n && n ≤ 122) || (65 ≤ n && n ≤ 90) || (48 ≤ n && n ≤ 57) ||
  accentedChars.contains c || isJsWhitespace c || c == '_' || c == '-'

/-- Embedding of `ChatController.validateUsername`: the empty string is
falsy in JavaScript and takes the first branch; then the trimmed string is
length-checked and matched against the character-class regex. On success
the trimmed username is returned. -/
def validateUsername (username : String) : Except String String :=
  if username = "" then .error "Nombre de usuario inválido"
  else
    let trimmed := trimJS username
    if trimmed.data.length < MIN_USERNAME_LENGTH then
      .error "El nombre debe tener al menos 2 caracteres"
    else if MAX_USERNAME_LENGTH < trimmed.data.length then
      .error "El nombre no puede exceder 30 caracteres"
    else if trimmed.data.all validChar then .ok trimmed
    else .error "El nombre contiene caracteres no permitidos"

/-! ## Sanitization (chatController.js sanitize) -/

/-- Model of `String.prototype.replace(/c/g, rep)` for a single-character
pattern: every occurrence of `c` is replaced by `rep`. -/
def replaceCharL (c : Char) (rep : List Char) : List Char → List Char
  | [] => []
  | a :: as => if a = c then rep ++ replaceCharL c rep as else a :: replaceCharL c rep as

/-- The apostrophe character U+0027. -/
def apostrophe : Char := Char.ofNat 39

/-- Replacement text for the ampersand: the amp entity. -/
def ampEsc : List Char := ['&', 'a', 'm', 'p', ';']

/-- Replacement text for the less-than sign: the lt entity. -/
def ltEsc : List Char := ['&', 'l', 't', ';']

/-- Replacement text for the greater-than sign: the gt entity. -/
def gtEsc : List Char := ['&', 'g', 't', ';']

/-- Replacement text for the double quote: the quot entity. -/
def quotEsc : List Char := ['&', 'q', 'u', 'o', 't', ';']

/-- Replacement text for the apostrophe: the hexadecimal x27 entity. -/
def aposEsc : List Char := ['&', '#', 'x', '2', '7', ';']

/-- Replacement text for the slash: the hexadecimal x2F entity. -/
def slashEsc : List Char := ['&', '#', 'x', '2', 'F', ';']

/-- Embedding of `ChatController.sanitize` on character lists: the six
chained global replaces of chatController.js, applied in source order
(ampersand first, slash last). -/
def sanitizeL (l : List Char) : List Char :=
  replaceCharL '/' slashEsc
    (replaceCharL apostrophe aposEsc
      (replaceCharL '"' quotEsc
        (replaceCharL '>' gtEsc
          (replaceCharL '<' ltEsc
            (replaceCharL '&' ampEsc l)))))

/-- Embedding of `ChatController.sanitize` on strings. -/
def sanitize (s : String) : String := ⟨sanitizeL s.data⟩

/-! ## Connection registry (clients.js ClientsManager) -/

/-- One entry of the `clients` map of clients.js: username (null until
join), ip, connectedAt, lastActivity; `wsOpen` models
`ws && ws.readyState === 1`. -/
structure Client where
  username : Option String
  ip : String
  connectedAt : Int
  lastActivity : Int
  wsOpen : Bool
deriving DecidableEq

/-- The `clients` map of ClientsManager: insertion-ordered association
list from client id to entry, with first-match lookup like a JavaScript
`Map` (whose keys are unique). -/
abbrev Registry := List (String × Client)

/-- Embedding of `ClientsManager.addClient`: stores a fresh entry with
`username = null`. The generated id (`generateClientId`, built from
`Date.now()` and `Math.random()`) is taken as a parameter. -/
def addClient (reg : Registry) (clientId ip : String) (now : Int) : Registry :=
  reg ++ [(clientId, { username := none, ip := ip, connectedAt := now,
                       lastActivity := now, wsOpen := true })]

/-- Embedding of `ClientsManager.getClient` (`Map.get`). -/
def getClient (reg : Registry) (clientId : String) : Option Client :=
  (reg.find? (fun p => p.1 == clientId)).map Prod.snd

/-- Embedding of `ClientsManager.isUsernameTaken`: scans every entry of
the map and compares `client.username === username`; `null` never equals
a string. -/
def isUsernameTaken (reg : Registry) (username : String) : Bool :=
  reg.any (fun p => p.2.username == some username)

/-- Updates the (unique) map entry with the given key in place, keeping
its position, as mutating the object returned by `Map.get` does. -/
def updateFirst (reg : Registry) (clientId : String) (f : Client → Client) : Registry :=
  match reg with
  | [] => []
  | p :: rest => if p.1 == clientId then (p.1, f p.2) :: rest
                 else p :: updateFirst rest clientId f

/-- Embedding of `ClientsManager.setUsername`: if the client exists, sets
`client.username = username` and `client.lastActivity = Date.now()` and
returns true; otherwise returns false. -/
def setUsername (reg : Registry) (clientId username : String) (now : Int) : Registry × Bool :=
  match getClient reg clientId with
  | some _ => (updateFirst reg clientId
                 (fun c => { c with username := some username, lastActivity := now }), true)
  | none => (reg, false)

/-- Embedding of `ClientsManager.updateActivity`. -/
def updateActivity (reg : Registry) (clientId : String) (now : Int) : Registry :=
  updateFirst reg clientId (fun c => { c with lastActivity := now })

/-- Embedding of `ClientsManager.removeClient`: deletes the entry if
present and returns it, otherwise returns null and leaves the map as is. -/
def removeClient (reg : Registry) (clientId : String) : Registry × Option Client :=
  match getClient reg clientId with
  | some c => (reg.eraseP (fun p => p.1 == clientId), some c)
  | none => (reg, none)

/-- One element of the `users` array built by
`ClientsManager.getActiveUsers`. -/
structure ActiveUser where
  username : String
  connectedAt : Int
deriving DecidableEq

/-- Embedding of `ClientsManager.getActiveUsers`: the clients with a
non-null username, in map insertion order. -/
def getActiveUsers (reg : Registry) : List ActiveUser :=
  reg.filterMap (fun p => p.2.username.map
    (fun u => { username := u, connectedAt := p.2.connectedAt }))

/-- The non-null usernames of the registry, in insertion order. -/
def activeNames (reg : Registry) : List String :=
  reg.filterMap (fun p => p.2.username)

/-- The inactivity timeout of `cleanupDeadConnections`: 5 minutes. -/
def CLEANUP_TIMEOUT : Int := 5 * 60 * 1000

/-- Embedding of `ClientsManager.cleanupDeadConnections`: collects the
ids whose entry is inactive (`now - lastActivity > timeout`) or whose
socket is closed, then removes each via `removeClient`; returns the
number removed. -/
def cleanupDeadConnections (reg : Registry) (now : Int) : Registry × Nat :=
  let deadClients := (reg.filter
    (fun p => (decide (CLEANUP_TIMEOUT < now - p.2.lastActivity)) || !p.2.wsOpen)).map Prod.fst
  (deadClients.foldl (fun r cid => (removeClient r cid).1) reg, deadClients.length)

/-- The ids to which `ClientsManager.broadcast` attempts a send: every
entry except the excluded id whose socket is open. Client ids are
non-empty strings, so the JavaScript truthiness test on
`excludeClientId` is modelled by the `Option`. -/
def broadcastTargets (reg : Registry) (excludeClientId : Option String) : List String :=
  (reg.filter (fun p => !(excludeClientId == some p.1) && p.2.wsOpen)).map Prod.fst

/-! ## Rate limiter (backend/rateLimiter.js) -/

/-- The `messageTracking` map of RateLimiter: identifier to timestamp
array. -/
abbrev RLMap := List (String × List Int)

/-- Lookup in `messageTracking` with the `|| []` default of checkLimit. -/
def getTracking (m : RLMap) (identifier : String) : List Int :=
  match m.find? (fun p => p.1 == identifier) with
  | some p => p.2
  | none => []

/-- Embedding of `messageTracking.set`: overwrite in place when the key
exists, append otherwise (JavaScript `Map.set`). -/
def setTracking (m : RLMap) (identifier : String) (v : List Int) : RLMap :=
  if m.any (fun p => p.1 == identifier) then
    m.map (fun p => if p.1 == identifier then (p.1, v) else p)
  else m ++ [(identifier, v)]

/-- Embedding of `RateLimiter.getClientIdentifier`: prefers the ip when
it is truthy and not the string "unknown", else falls back to the client
id. -/
def getClientIdentifier (clientId : String) (ip : Option String) : String :=
  match ip with
  | some s => if s ≠ "" ∧ s ≠ "unknown" then "ip:" ++ s else "client:" ++ clientId
  | none => "client:" ++ clientId

/-- Integer ceiling of x / 1000 for the `Math.ceil((...)/1000)` of
checkLimit (the dividend is an integer number of milliseconds). -/
def ceilDiv1000 (x : Int) : Int := (x + 999) / 1000

/-- The object returned by `RateLimiter.checkLimit`. -/
structure CheckResult where
  allowed : Bool
  remaining : Int
  resetIn : Int
  message : Option String
deriving DecidableEq

/-- Embedding of `RateLimiter.checkLimit`: filters the identifier's
timestamps to those strictly inside the trailing window, rejects without
writing back when the count reaches the limit (computing `resetIn` from
the oldest kept timestamp), otherwise appends `now` and stores the
pruned-plus-new array. -/
def checkLimit (m : RLMap) (clientId : String) (ip : Option String) (now : Int) :
    CheckResult × RLMap :=
  let identifier := getClientIdentifier clientId ip
  let windowStart := now - RATE_LIMIT_WINDOW
  let timestamps := (getTracking m identifier).filter (fun ts => decide (windowStart < ts))
  if MAX_MESSAGES_PER_MINUTE ≤ timestamps.length then
    let oldestTimestamp := timestamps.headD 0
    let resetIn := ceilDiv1000 (oldestTimestamp + RATE_LIMIT_WINDOW - now)
    ({ allowed := false, remaining := 0, resetIn := resetIn,
       message := some ("Límite excedido. Espera " ++ toString resetIn ++ " segundos.") }, m)
  else
    let timestamps2 := timestamps ++ [now]
    ({ allowed := true, remaining := (MAX_MESSAGES_PER_MINUTE : Int) - timestamps2.length,
       resetIn := ceilDiv1000 RATE_LIMIT_WINDOW, message := none },
     setTracking m identifier timestamps2)

/-- Runs a number of consecutive checkLimit calls for the same client at
the same instant (back-to-back messages), threading the map and
collecting the results in order. -/
def checkN : Nat → RLMap → String → Option String → Int → List CheckResult × RLMap
  | 0, st, _, _, _ => ([], st)
  | n + 1, st, c, o, now =>
    let r := checkLimit st c o now
    let rest := checkN n r.2 c o now
    (r.1 :: rest.1, rest.2)

/-! ## Chat controller (chatController.js) -/

/-- Embedding of `ChatController.validateMessageContent`: the empty
string is falsy and rejected; the trimmed content must have length in
[MIN_MESSAGE_LENGTH, MAX_MESSAGE_LENGTH]; on success the trimmed content
is returned. -/
def validateMessageContent (content : String) : Except String String :=
  if content = "" then .error "Contenido inválido"
  else
    let trimmed := trimJS content
    if trimmed.data.length < MIN_MESSAGE_LENGTH then .error "El mensaje es demasiado corto"
    else if MAX_MESSAGE_LENGTH < trimmed.data.length then .error "El mensaje es demasiado largo"
    else .ok trimmed

/-- Outcome of `ChatController.handleJoin`, tagging which reply the code
sends: early return on unknown client, `sendError` with the validation
error, `sendError` with USERNAME_TAKEN, or the success path (which sets
the username and sends `joined` to the client and `userJoined` to the
rest). -/
inductive JoinResult where
  | notFound : JoinResult
  | invalid (err : String) : JoinResult
  | taken : JoinResult
  | ok (username : String) : JoinResult
deriving DecidableEq

/-- Embedding of `ChatController.handleJoin` on the registry: looks the
client up, validates `data.username`, sanitizes the trimmed name, rejects
when `isUsernameTaken`, and otherwise stores it via `setUsername`. -/
def handleJoin (reg : Registry) (clientId : String) (usernameRaw : String) (now : Int) :
    Registry × JoinResult :=
  match getClient reg clientId with
  | none => (reg, .notFound)
  | some _ =>
    match validateUsername usernameRaw with
    | .error e => (reg, .invalid e)
    | .ok trimmed =>
      let username := sanitize trimmed
      if isUsernameTaken reg username then (reg, .taken)
      else ((setUsername reg clientId username now).1, .ok username)

/-- An entry of the delivery queue of chatController.js (`queueMessage`):
sender id and name, sanitized content, timestamp. -/
structure OutboundMessage where
  clientId : String
  username : String
  content : String
  timestamp : Int
deriving DecidableEq

/-- Outcome of `ChatController.handleChatMessage`: early return on
unknown client, NotJoined error, content-validation error, rate-limit
rejection, or an OutboundMessage appended to the delivery queue. -/
inductive ChatOutcome where
  | notFound : ChatOutcome
  | notJoined (err : String) : ChatOutcome
  | invalid (err : String) : ChatOutcome
  | rateLimited (msg : Option String) : ChatOutcome
  | queued (m : OutboundMessage) : ChatOutcome
deriving DecidableEq

/-- Embedding of `ChatController.handleChatMessage`: requires a known,
named client, validates and sanitizes the content, consults
`rateLimiter.checkLimit` (whose map is threaded through), and on
acceptance builds the queued OutboundMessage. -/
def handleChatMessage (reg : Registry) (rl : RLMap) (clientId : String) (content : String)
    (now : Int) : ChatOutcome × RLMap :=
  match getClient reg clientId with
  | none => (.notFound, rl)
  | some client =>
    match client.username with
    | none => (.notJoined "Debes unirte al chat primero", rl)
    | some uname =>
      match validateMessageContent content with
      | .error e => (.invalid e, rl)
      | .ok trimmed =>
        let c := sanitize trimmed
        let res := checkLimit rl clientId (some client.ip) now
        if res.1.allowed then
          (.queued { clientId := clientId, username := uname, content := c, timestamp := now },
           res.2)
        else (.rateLimited res.1.message, res.2)

/-- The `userLeft` broadcast performed by `ChatController.handleDisconnect`:
payload fields plus the excluded recipient. -/
structure UserLeftBroadcast where
  username : String
  message : String
  timestamp : Int
  users : List ActiveUser
  excludeId : Option String
deriving DecidableEq

/-- Embedding of `ChatController.handleDisconnect`: when the client
exists and is named, builds the `userLeft` broadcast (roster =
`getActiveUsers()` filtered to usernames different from the leaver,
computed before removal), then removes the client; otherwise it only
removes (a no-op when absent). The source calls
`clientsManager.broadcast(data)` with no exclude argument, so
`excludeId` is the default null — the leaver is not excluded and is
skipped only when its socket is no longer open. -/
def handleDisconnect (reg : Registry) (clientId : String) (now : Int) :
    Registry × Option UserLeftBroadcast :=
  match getClient reg clientId with
  | some client =>
    match client.username with
    | some uname =>
      let b : UserLeftBroadcast :=
        { username := uname,
          message := uname ++ " ha abandonado el chat",
          timestamp := now,
          users := (getActiveUsers reg).filter (fun u => !(u.username == uname)),
          excludeId := none }
      ((removeClient reg clientId).1, some b)
    | none => ((removeClient reg clientId).1, none)
  | none => ((removeClient reg clientId).1, none)

/-! ## Delivery queue (chatController.js queueMessage / processMessageQueue)

The queue is drained by an async loop; the single-threaded event loop
runs the code between awaits atomically. States record the
`messageQueue` array, the `isProcessingQueue` flag, the number of drain
loops currently alive (`activeDrains`), the sequence of broadcasts
performed, the number of inter-message delays taken, and (as history)
every message ever enqueued in order. -/

structure QState where
  messageQueue : List OutboundMessage
  isProcessingQueue : Bool
  activeDrains : Nat
  broadcastLog : List OutboundMessage
  delaysTaken : Nat
  enqueued : List OutboundMessage
deriving DecidableEq

/-- The initial controller state: empty queue, flag down, no drain loop
running. -/
def QState.init : QState :=
  { messageQueue := [], isProcessingQueue := false, activeDrains := 0,
    broadcastLog := [], delaysTaken := 0, enqueued := [] }

/-- One atomic step of the queue machinery, between awaits of the event
loop:
- `enqueueIdle`: `queueMessage` pushes and, the flag being down, calls
  `processMessageQueue`, which synchronously sets the flag — one new
  drain loop starts;
- `enqueueBusy`: `queueMessage` pushes while the flag is up and starts
  nothing;
- `broadcastStep`: a running drain loop shifts the head and broadcasts
  it, then sleeps MESSAGE_DELAY only if the remaining queue is non-empty
  (and the configured delay is positive);
- `finishDrain`: a running drain loop finds the queue empty, lowers the
  flag and exits. -/
inductive QStep : QState → QState → Prop where
  | enqueueIdle (s : QState) (m : OutboundMessage) :
      s.isProcessingQueue = false →
      QStep s { s with messageQueue := s.messageQueue ++ [m],
                       isProcessingQueue := true,
                       activeDrains := s.activeDrains + 1,
                       enqueued := s.enqueued ++ [m] }
  | enqueueBusy (s : QState) (m : OutboundMessage) :
      s.isProcessingQueue = true →
      QStep s { s with messageQueue := s.messageQueue ++ [m],
                       enqueued := s.enqueued ++ [m] }
  | broadcastStep (s : QState) (m : OutboundMessage) (rest : List OutboundMessage) :
      1 ≤ s.activeDrains →
      s.messageQueue = m :: rest →
      QStep s { s with messageQueue := rest,
                       broadcastLog := s.broadcastLog ++ [m],
                       delaysTaken := s.delaysTaken +
                         (if rest ≠ [] ∧ 0 < MESSAGE_DELAY then 1 else 0) }
  | finishDrain (s : QState) :
      1 ≤ s.activeDrains →
      s.messageQueue = [] →
      QStep s { s with isProcessingQueue := false,
                       activeDrains := s.activeDrains - 1 }

/-- Reachability of a controller state from the initial state. -/
def QReachable (s : QState) : Prop := Relation.ReflTransGen QStep QState.init s

/-! ## Shared demonstration values for witnesses -/

/-- A named, open demo connection entry. -/
def anaClient : Client :=
  { username := some "Ana", ip := "unknown", connectedAt := 0, lastActivity := 0, wsOpen := true }

/-- A second named, open demo connection entry. -/
def bobClient : Client :=
  { username := some "Bob", ip := "unknown", connectedAt := 1, lastActivity := 1, wsOpen := true }

/-- Demo registry with a single named connection. -/
def regAna : Registry := [("c1", anaClient)]

/-- Demo registry with two named connections. -/
def regTwo : Registry := [("c1", anaClient), ("c2", bobClient)]

/-- A demo outbound message. -/
def msgHola : OutboundMessage :=
  { clientId := "c1", username := "Ana", content := "hola", timestamp := 0 }

/-- A second demo outbound message. -/
def msgMundo : OutboundMessage :=
  { clientId := "c1", username := "Ana", content := "mundo", timestamp := 1 }

/-! ## Lemmas about replaceCharL and sanitize -/

/-- Every character of a replaced list comes from the replacement text or
is a non-pattern character of the original list. -/
lemma mem_replaceCharL {x c : Char} {rep l : List Char}
    (h : x ∈ replaceCharL c rep l) : x ∈ rep ∨ (x ∈ l ∧ x ≠ c) := by
  induction l with
  | nil => simp [replaceCharL] at h
  | cons a as ih =>
    simp only [replaceCharL] at h
    by_cases hac : a = c
    · rw [if_pos hac] at h
      rcases List.mem_append.mp h with h1 | h2
      · exact Or.inl h1
      · rcases ih h2 with h3 | ⟨h4, h5⟩
        · exact Or.inl h3
        · exact Or.inr ⟨List.mem_cons_of_mem _ h4, h5⟩
    · rw [if_neg hac] at h
      rcases List.mem_cons.mp h with rfl | h2
      · exact Or.inr ⟨List.mem_cons_self _ _, hac⟩
      · rcases ih h2 with h3 | ⟨h4, h5⟩
        · exact Or.inl h3
        · exact Or.inr ⟨List.mem_cons_of_mem _ h4, h5⟩

/-- Replacing a character that does not occur leaves the list unchanged. -/
lemma replaceCharL_of_not_mem {c : Char} {rep l : List Char} (h : c ∉ l) :
    replaceCharL c rep l = l := by
  induction l with
  | nil => rfl
  | cons a as ih =>
    have hne : ¬(a = c) := fun hac => h (by rw [← hac]; exact List.mem_cons_self _ _)
    simp only [replaceCharL, if_neg hne]
    rw [ih (fun hc => h (List.mem_cons_of_mem _ hc))]

/-- After the full sanitize chain, no literal less-than character
remains. -/
lemma sanitizeL_no_lt (l : List Char) : '<' ∉ sanitizeL l := by
  intro hmem
  simp only [sanitizeL] at hmem
  rcases mem_replaceCharL hmem with h | ⟨h, _⟩
  · revert h; decide
  rcases mem_replaceCharL h with h | ⟨h, _⟩
  · revert h; decide
  rcases mem_replaceCharL h with h | ⟨h, _⟩
  · revert h; decide
  rcases mem_replaceCharL h with h | ⟨h, _⟩
  · revert h; decide
  rcases mem_replaceCharL h with h | ⟨_, hne⟩
  · revert h; decide
  · exact hne rfl

/-- After the full sanitize chain, no literal greater-than character
remains. -/
lemma sanitizeL_no_gt (l : List Char) : '>' ∉ sanitizeL l := by
  intro hmem
  simp only [sanitizeL] at hmem
  rcases mem_replaceCharL hmem with h | ⟨h, _⟩
  · revert h; decide
  rcases mem_replaceCharL h with h | ⟨h, _⟩
  · revert h; decide
  rcases mem_replaceCharL h with h | ⟨h, _⟩
  · revert h; decide
  rcases mem_replaceCharL h with h | ⟨_, hne⟩
  · revert h; decide
  · exact hne rfl

/-- A character admitted by the username character class is none of the
six characters escaped by sanitize. -/
lemma validChar_not_escaped {c : Char} (h : validChar c = true) :
    c ≠ '&' ∧ c ≠ '<' ∧ c ≠ '>' ∧ c ≠ '"' ∧ c ≠ apostrophe ∧ c ≠ '/' := by
  refine ⟨?_, ?_, ?_, ?_, ?_, ?_⟩ <;>
    (intro he; subst he; revert h; decide)

/-- Sanitize is the identity on lists all of whose characters are in the
username character class. -/
lemma sanitizeL_of_valid {l : List Char} (h : ∀ x ∈ l, validChar x = true) :
    sanitizeL l = l := by
  have h1 : '&' ∉ l := fun hm => (validChar_not_escaped (h _ hm)).1 rfl
  have h2 : '<' ∉ l := fun hm => (validChar_not_escaped (h _ hm)).2.1 rfl
  have h3 : '>' ∉ l := fun hm => (validChar_not_escaped (h _ hm)).2.2.1 rfl
  have h4 : '"' ∉ l := fun hm => (validChar_not_escaped (h _ hm)).2.2.2.1 rfl
  have h5 : apostrophe ∉ l := fun hm => (validChar_not_escaped (h _ hm)).2.2.2.2.1 rfl
  have h6 : '/' ∉ l := fun hm => (validChar_not_escaped (h _ hm)).2.2.2.2.2 rfl
  simp only [sanitizeL]
  rw [replaceCharL_of_not_mem h1, replaceCharL_of_not_mem h2, replaceCharL_of_not_mem h3,
      replaceCharL_of_not_mem h4, replaceCharL_of_not_mem h5, replaceCharL_of_not_mem h6]

/-- A successful validateUsername returns the trimmed input, whose
characters all lie in the username character class. -/
lemma validateUsername_ok {u t : String} (h : validateUsername u = .ok t) :
    t = trimJS u ∧ ∀ x ∈ t.data, validChar x = true := by
  by_cases hu : u = ""
  · simp [validateUsername, hu] at h
  · simp only [validateUsername, if_neg hu] at h
    split at h
    · exact absurd h (by simp)
    · split at h
      · exact absurd h (by simp)
      · split at h
        · rename_i hall
          cases h
          exact ⟨rfl, fun x hx => List.all_eq_true.mp hall x hx⟩
        · exact absurd h (by simp)

/-! ## Claim theorems: sanitization and validation -/

/-- C4: sanitize escapes ampersand, angle brackets, quotes and slash, so
for every input string the result contains no literal less-than or
greater-than character; every chat message that handleChatMessage stores
in an OutboundMessage (and that is later broadcast) has angle-bracket
free content; in particular the script-tag probe sanitizes to its fully
escaped form. -/
theorem sanitization_no_angle_brackets :
    (∀ s : String, '<' ∉ (sanitize s).data ∧ '>' ∉ (sanitize s).data) ∧
    (∀ reg rl clientId content now m rl2,
      handleChatMessage reg rl clientId content now = (.queued m, rl2) →
      '<' ∉ m.content.data ∧ '>' ∉ m.content.data) ∧
    sanitize "<script>alert(1)</script>" = "&lt;script&gt;alert(1)&lt;&#x2F;script&gt;" := by
  refine ⟨fun s => ⟨sanitizeL_no_lt s.data, sanitizeL_no_gt s.data⟩, ?_, by decide⟩
  intro reg rl clientId content now m rl2 h
  simp only [handleChatMessage] at h
  split at h
  · simp at h
  · split at h
    · simp at h
    · split at h
      · simp at h
      · split at h
        · simp only [Prod.mk.injEq, ChatOutcome.queued.injEq] at h
          rw [← h.1]
          exact ⟨sanitizeL_no_lt _, sanitizeL_no_gt _⟩
        · simp at h

/-- Witness: a concrete run of handleChatMessage that queues a message,
whose content then contains no angle bracket. -/
theorem sanitization_no_angle_brackets_witness :
    '<' ∉ ("hola" : String).data ∧ '>' ∉ ("hola" : String).data :=
  sanitization_no_angle_brackets.2.1 regAna [] "c1" " hola " 3
    { clientId := "c1", username := "Ana", content := "hola", timestamp := 3 }
    [("client:c1", [3])] (by decide)

/-- C10: sanitize is the identity on every username accepted by
validateUsername (the validation character class excludes all six
escaped characters), so the username stored by a successful join equals
the trimmed client input character for character. -/
theorem sanitize_identity_on_valid_usernames :
    (∀ u t, validateUsername u = .ok t → sanitize t = t ∧ t = trimJS u) ∧
    (∀ reg clientId raw now reg2 uname,
      handleJoin reg clientId raw now = (reg2, .ok uname) → uname = trimJS raw) := by
  have key : ∀ u t, validateUsername u = .ok t → sanitize t = t ∧ t = trimJS u := by
    intro u t h
    obtain ⟨ht, hall⟩ := validateUsername_ok h
    refine ⟨?_, ht⟩
    show (⟨sanitizeL t.data⟩ : String) = t
    rw [sanitizeL_of_valid hall]
  refine ⟨key, ?_⟩
  intro reg clientId raw now reg2 uname h
  simp only [handleJoin] at h
  split at h
  · simp at h
  · split at h
    · simp at h
    · rename_i trimmed hv
      split at h
      · simp at h
      · simp only [Prod.mk.injEq, JoinResult.ok.injEq] at h
        obtain ⟨hs, ht⟩ := key raw trimmed hv
        rw [← h.2, hs, ht]

/-- Witness: validateUsername accepts the name Ana and sanitize leaves
it unchanged. -/
theorem sanitize_identity_on_valid_usernames_witness :
    sanitize "Ana" = "Ana" ∧ "Ana" = trimJS "Ana" :=
  sanitize_identity_on_valid_usernames.1 "Ana" "Ana" rfl

/-- C7 counterexample: a two-character name made only of the accented
letter e-grave is a string of letters with trimmed length 2, yet
validateUsername rejects it — the regex admits only the twelve listed
Spanish accented letters, not every accented letter. -/
theorem username_validation_counterexample :
    validateUsername "èè" = .error "El nombre contiene caracteres no permitidos" ∧
    (trimJS "èè").data.length = 2 := ⟨rfl, rfl⟩

/-- C7 amended: handleJoin trims the input and accepts exactly the
strings whose trimmed length lies in [2,30] and whose characters are all
in the class {ASCII letters, digits, the accented letters
á é í ó ú Á É Í Ó Ú ñ Ñ, whitespace, underscore, hyphen}; the accepted
value is the trimmed input. -/
theorem username_validation_amended :
    ∀ u : String,
      (validateUsername u = .ok (trimJS u) ∨ ∃ e, validateUsername u = .error e) ∧
      (validateUsername u = .ok (trimJS u) ↔
        MIN_USERNAME_LENGTH ≤ (trimJS u).data.length ∧
        (trimJS u).data.length ≤ MAX_USERNAME_LENGTH ∧
        (trimJS u).data.all validChar = true) := by
  intro u
  by_cases hu : u = ""
  · subst hu
    refine ⟨Or.inr ⟨_, rfl⟩, ?_, ?_⟩
    · intro h; exact absurd h (by decide)
    · rintro ⟨h1, -, -⟩; revert h1; decide
  · simp only [validateUsername, if_neg hu, MIN_USERNAME_LENGTH, MAX_USERNAME_LENGTH]
    constructor
    · split_ifs <;> first | exact Or.inl rfl | exact Or.inr ⟨_, rfl⟩
    · split_ifs with h1 h2 h3
      · constructor
        · intro h; simp at h
        · rintro ⟨hc, -, -⟩; omega
      · constructor
        · intro h; simp at h
        · rintro ⟨-, hc, -⟩; omega
      · constructor
        · intro _; exact ⟨by omega, by omega, h3⟩
        · intro _; rfl
      · constructor
        · intro h; simp at h
        · rintro ⟨-, -, hc⟩; exact absurd hc h3

/-! ## Claim theorem: rejection leaves the rate limiter unchanged -/

/-- C9: whenever checkLimit rejects, the messageTracking map is returned
exactly as it was — no timestamp is appended and the pruned array is not
written back. -/
theorem reject_leaves_state_unchanged :
    ∀ (m : RLMap) (clientId : String) (ip : Option String) (now : Int),
      (checkLimit m clientId ip now).1.allowed = false →
      (checkLimit m clientId ip now).2 = m := by
  intro m clientId ip now h
  by_cases hc : MAX_MESSAGES_PER_MINUTE ≤
      ((getTracking m (getClientIdentifier clientId ip)).filter
        (fun ts => decide (now - RATE_LIMIT_WINDOW < ts))).length
  · simp only [checkLimit, if_pos hc]
  · simp only [checkLimit, if_neg hc] at h
    simp at h

/-- Witness: a saturated window at time zero is rejected and the map is
unchanged. -/
theorem reject_leaves_state_unchanged_witness :
    (checkLimit [("client:c1", [0, 0, 0, 0, 0, 0, 0, 0, 0, 0])] "c1" none 0).2
      = [("client:c1", [0, 0, 0, 0, 0, 0, 0, 0, 0, 0])] :=
  reject_leaves_state_unchanged _ "c1" none 0 rfl

/-! ## Lemmas for the rate-limit scenario -/

/-- Filtering a constant list keeps it whole or empties it according to
the predicate's value at the constant. -/
lemma filter_replicate (f : Int → Bool) (a : Int) (n : Nat) :
    (List.replicate n a).filter f = if f a then List.replicate n a else [] := by
  induction n with
  | zero => simp
  | succ k ih =>
    rw [List.replicate_succ, List.filter_cons, ih]
    cases hfa : f a <;> simp [hfa, List.replicate_succ]

/-- Lookup in a singleton tracking map. -/
lemma getTracking_single (i : String) (l : List Int) : getTracking [(i, l)] i = l := by
  simp [getTracking]

/-- Overwriting a singleton tracking map. -/
lemma setTracking_single (i : String) (l v : List Int) :
    setTracking [(i, l)] i v = [(i, v)] := by
  simp [setTracking]

/-- When the key exists, the in-place overwrite makes lookup return the
new value. -/
lemma getTracking_map_set (i : String) (v : List Int) :
    ∀ m : RLMap, m.any (fun p => p.1 == i) = true →
      getTracking (m.map (fun p => if p.1 == i then (p.1, v) else p)) i = v := by
  intro m
  induction m with
  | nil => intro h; simp at h
  | cons p rest ih =>
    intro h
    rw [List.map_cons]
    cases hpi : (p.1 == i) with
    | true =>
      rw [if_pos rfl]
      simp only [getTracking, List.find?, hpi]
    | false =>
      rw [if_neg (by simp)]
      have hrest : rest.any (fun q => q.1 == i) = true := by
        simpa [hpi] using h
      have hr := ih hrest
      simp only [getTracking] at hr
      simp only [getTracking, List.find?, hpi]
      exact hr

/-- When the key is new, appending the entry makes lookup return the new
value. -/
lemma getTracking_append_new (i : String) (v : List Int) :
    ∀ m : RLMap, m.any (fun p => p.1 == i) = false →
      getTracking (m ++ [(i, v)]) i = v := by
  intro m
  induction m with
  | nil => simp [getTracking]
  | cons p rest ih =>
    intro h
    simp only [List.any_cons, Bool.or_eq_false_iff] at h
    have hr := ih h.2
    rw [List.cons_append]
    simp only [getTracking] at hr
    simp only [getTracking, List.find?, h.1]
    exact hr

/-- Lookup after a `Map.set` returns the stored value. -/
lemma getTracking_setTracking (m : RLMap) (i : String) (v : List Int) :
    getTracking (setTracking m i v) i = v := by
  cases hany : m.any (fun p => p.1 == i) with
  | true => rw [setTracking, if_pos hany]; exact getTracking_map_set i v m hany
  | false =>
    rw [setTracking, if_neg (by simp [hany])]
    exact getTracking_append_new i v m hany

/-- An accepted call on a window holding k identical timestamps taken
now: the call is allowed and the stored window gains one entry. -/
lemma checkLimit_accept_step (c : String) (o : Option String) (now : Int) (k : Nat)
    (hk : k < MAX_MESSAGES_PER_MINUTE) :
    (checkLimit [(getClientIdentifier c o, List.replicate k now)] c o now).1.allowed = true ∧
    (checkLimit [(getClientIdentifier c o, List.replicate k now)] c o now).2 =
      [(getClientIdentifier c o, List.replicate (k + 1) now)] := by
  have hlt : now - RATE_LIMIT_WINDOW < now := by rw [RATE_LIMIT_WINDOW]; omega
  have hfil : (List.replicate k now).filter (fun ts => decide (now - RATE_LIMIT_WINDOW < ts))
      = List.replicate k now := by
    rw [filter_replicate]; simp [hlt]
  simp only [checkLimit, getTracking_single, hfil, List.length_replicate,
    if_neg (Nat.not_le.mpr hk)]
  refine ⟨by trivial, ?_⟩
  rw [setTracking_single, ← List.replicate_succ']

/-- The call that finds a full window of 10 timestamps taken now is
rejected with resetIn 60 and leaves the map unchanged. -/
lemma checkLimit_reject_step (c : String) (o : Option String) (now : Int) :
    (checkLimit [(getClientIdentifier c o, List.replicate 10 now)] c o now).1.allowed = false ∧
    (checkLimit [(getClientIdentifier c o, List.replicate 10 now)] c o now).1.resetIn = 60 ∧
    (checkLimit [(getClientIdentifier c o, List.replicate 10 now)] c o now).2 =
      [(getClientIdentifier c o, List.replicate 10 now)] := by
  have hlt : now - RATE_LIMIT_WINDOW < now := by rw [RATE_LIMIT_WINDOW]; omega
  have hfil : (List.replicate 10 now).filter (fun ts => decide (now - RATE_LIMIT_WINDOW < ts))
      = List.replicate 10 now := by
    rw [filter_replicate]; simp [hlt]
  have h60 : (List.replicate 10 now).headD 0 + RATE_LIMIT_WINDOW - now = 60000 := by
    show now + RATE_LIMIT_WINDOW - now = 60000
    rw [RATE_LIMIT_WINDOW]; omega
  simp only [checkLimit, getTracking_single, hfil, List.length_replicate,
    if_pos (by decide : MAX_MESSAGES_PER_MINUTE ≤ 10), h60]
  refine ⟨by trivial, by decide, by trivial⟩

/-- The very first call on an empty map is allowed and creates the
identifier's entry. -/
lemma checkLimit_empty (c : String) (o : Option String) (now : Int) :
    (checkLimit [] c o now).1.allowed = true ∧
    (checkLimit [] c o now).2 = [(getClientIdentifier c o, List.replicate 1 now)] :=
  ⟨rfl, rfl⟩

/-- A call made at least a full window after ten identical timestamps is
allowed again (the old timestamps are pruned). -/
lemma checkLimit_after_window (c : String) (o : Option String) (now later : Int)
    (h : now + RATE_LIMIT_WINDOW ≤ later) :
    (checkLimit [(getClientIdentifier c o, List.replicate 10 now)] c o later).1.allowed
      = true := by
  have hnlt : ¬(later - RATE_LIMIT_WINDOW < now) := by
    rw [RATE_LIMIT_WINDOW] at h ⊢; omega
  have hfil : (List.replicate 10 now).filter (fun ts => decide (later - RATE_LIMIT_WINDOW < ts))
      = [] := by
    rw [filter_replicate]; simp [hnlt]
  simp only [checkLimit, getTracking_single, hfil, List.length_nil,
    if_neg (by decide : ¬MAX_MESSAGES_PER_MINUTE ≤ 0)]

/-- Chained accepted calls: starting from j identical timestamps, k more
back-to-back calls with j + k within the limit are all allowed and leave
j + k identical timestamps. -/
lemma checkN_accepts (c : String) (o : Option String) (now : Int) :
    ∀ (k j : Nat), j + k ≤ MAX_MESSAGES_PER_MINUTE →
      (∀ r ∈ (checkN k [(getClientIdentifier c o, List.replicate j now)] c o now).1,
         r.allowed = true) ∧
      (checkN k [(getClientIdentifier c o, List.replicate j now)] c o now).2 =
        [(getClientIdentifier c o, List.replicate (j + k) now)] ∧
      (checkN k [(getClientIdentifier c o, List.replicate j now)] c o now).1.length = k := by
  intro k
  induction k with
  | zero => intro j h; exact ⟨by simp [checkN], by simp [checkN], by simp [checkN]⟩
  | succ n ih =>
    intro j h
    have hjlt : j < MAX_MESSAGES_PER_MINUTE := by
      have : (10 : Nat) = MAX_MESSAGES_PER_MINUTE := rfl
      omega
    obtain ⟨ha, hs⟩ := checkLimit_accept_step c o now j hjlt
    have hadd : j + 1 + n = j + (n + 1) := by omega
    obtain ⟨ih1, ih2, ih3⟩ := ih (j + 1) (by omega)
    simp only [checkN, hs]
    refine ⟨?_, ?_, ?_⟩
    · intro r hr
      rcases List.mem_cons.mp hr with rfl | hr2
      · exact ha
      · exact ih1 r hr2
    · rw [ih2, hadd]
    · simp [ih3]

/-- Unfolding one call of a non-empty run. -/
lemma checkN_succ (n : Nat) (st : RLMap) (c : String) (o : Option String) (now : Int) :
    checkN (n + 1) st c o now =
      ((checkLimit st c o now).1 :: (checkN n (checkLimit st c o now).2 c o now).1,
       (checkN n (checkLimit st c o now).2 c o now).2) := rfl

/-- Decomposition of a longer run into two consecutive runs. -/
lemma checkN_add (c : String) (o : Option String) (now : Int) :
    ∀ (a b : Nat) (st : RLMap),
      checkN (a + b) st c o now =
        ((checkN a st c o now).1 ++ (checkN b (checkN a st c o now).2 c o now).1,
         (checkN b (checkN a st c o now).2 c o now).2) := by
  intro a
  induction a with
  | zero => intro b st; simp [checkN]
  | succ n ih =>
    intro b st
    have hadd : n + 1 + b = (n + b) + 1 := by omega
    rw [hadd]
    simp only [checkN]
    rw [ih b (checkLimit st c o now).2]
    simp

/-! ## Claim theorem: rate limit exactness -/

/-- C2: with the configured limit 10 per 60000 ms, eleven back-to-back
calls from one identifier on a fresh map are allowed for the first ten
and rejected with positive resetIn on the eleventh; a further call at
least a window later is allowed again. In general an accepted call
stores the pruned window plus now and reports remaining = limit minus
the new count, and a rejected call reports
resetIn = ceil((oldest + window - now) / 1000). -/
theorem rate_limit_exactness :
    ∀ (clientId : String) (ip : Option String) (now later : Int),
      now + RATE_LIMIT_WINDOW ≤ later →
      (checkN 11 [] clientId ip now).1.length = 11 ∧
      (∀ r ∈ (checkN 11 [] clientId ip now).1.take 10, r.allowed = true) ∧
      (∀ r ∈ (checkN 11 [] clientId ip now).1.drop 10,
         r.allowed = false ∧ 0 < r.resetIn) ∧
      (checkLimit (checkN 11 [] clientId ip now).2 clientId ip later).1.allowed = true ∧
      (∀ st : RLMap, (checkLimit st clientId ip now).1.allowed = true →
        getTracking (checkLimit st clientId ip now).2 (getClientIdentifier clientId ip) =
          (getTracking st (getClientIdentifier clientId ip)).filter
            (fun ts => decide (now - RATE_LIMIT_WINDOW < ts)) ++ [now] ∧
        (checkLimit st clientId ip now).1.remaining =
          (MAX_MESSAGES_PER_MINUTE : Int) -
            (((getTracking st (getClientIdentifier clientId ip)).filter
              (fun ts => decide (now - RATE_LIMIT_WINDOW < ts))).length + 1)) ∧
      (∀ st : RLMap, (checkLimit st clientId ip now).1.allowed = false →
        (checkLimit st clientId ip now).1.resetIn =
          ceilDiv1000 (((getTracking st (getClientIdentifier clientId ip)).filter
            (fun ts => decide (now - RATE_LIMIT_WINDOW < ts))).headD 0
            + RATE_LIMIT_WINDOW - now)) := by
  intro c o now later hlater
  obtain ⟨ha0, hs0⟩ := checkLimit_empty c o now
  obtain ⟨hmem9, hst9, hlen9⟩ := checkN_accepts c o now 9 1 (by decide)
  obtain ⟨hra, hrr, hrs⟩ := checkLimit_reject_step c o now
  -- one reject step as a run of length one
  have hone : checkN 1 [(getClientIdentifier c o, List.replicate 10 now)] c o now =
      ([(checkLimit [(getClientIdentifier c o, List.replicate 10 now)] c o now).1],
       [(getClientIdentifier c o, List.replicate 10 now)]) := by
    simp only [checkN]
    rw [hrs]
  -- the run of length 10 from the state after the first call
  have hten : checkN 10 [(getClientIdentifier c o, List.replicate 1 now)] c o now =
      ((checkN 9 [(getClientIdentifier c o, List.replicate 1 now)] c o now).1 ++
        [(checkLimit [(getClientIdentifier c o, List.replicate 10 now)] c o now).1],
       [(getClientIdentifier c o, List.replicate 10 now)]) := by
    have h := checkN_add c o now 9 1 [(getClientIdentifier c o, List.replicate 1 now)]
    rw [hst9, hone] at h
    exact h
  -- unfold the very first of the eleven calls
  have helevens : checkN 11 [] c o now =
      ((checkLimit [] c o now).1 ::
        ((checkN 9 [(getClientIdentifier c o, List.replicate 1 now)] c o now).1 ++
          [(checkLimit [(getClientIdentifier c o, List.replicate 10 now)] c o now).1]),
       [(getClientIdentifier c o, List.replicate 10 now)]) := by
    have h11 : (11 : Nat) = 10 + 1 := rfl
    rw [h11, checkN_succ, hs0, hten]
  rw [helevens]
  have h10 : (10 : Nat) = 9 + 1 := rfl
  refine ⟨?_, ?_, ?_, ?_, ?_, ?_⟩
  · rw [List.length_cons, List.length_append, hlen9]
    rfl
  · intro r hr
    rw [h10, List.take_succ_cons, List.take_left' hlen9] at hr
    rcases List.mem_cons.mp hr with rfl | hr2
    · exact ha0
    · exact hmem9 r hr2
  · intro r hr
    rw [h10, List.drop_succ_cons, List.drop_left' hlen9] at hr
    rcases List.mem_cons.mp hr with rfl | hr2
    · exact ⟨hra, by rw [hrr]; decide⟩
    · simp at hr2
  · exact checkLimit_after_window c o now later hlater
  · intro st hallow
    by_cases hc : MAX_MESSAGES_PER_MINUTE ≤
        ((getTracking st (getClientIdentifier c o)).filter
          (fun ts => decide (now - RATE_LIMIT_WINDOW < ts))).length
    · simp only [checkLimit, if_pos hc] at hallow
      simp at hallow
    · simp only [checkLimit, if_neg hc]
      refine ⟨getTracking_setTracking _ _ _, ?_⟩
      simp [List.length_append]
  · intro st hallow
    by_cases hc : MAX_MESSAGES_PER_MINUTE ≤
        ((getTracking st (getClientIdentifier c o)).filter
          (fun ts => decide (now - RATE_LIMIT_WINDOW < ts))).length
    · simp only [checkLimit, if_pos hc]
    · simp only [checkLimit, if_neg hc] at hallow
      simp at hallow

/-- Witness: the eleven-call scenario at time 0 with a further call at
time 60000 for client c1. -/
theorem rate_limit_exactness_witness :
    (checkLimit (checkN 11 [] "c1" none 0).2 "c1" none 60000).1.allowed = true :=
  (rate_limit_exactness "c1" none 0 60000 (by decide)).2.2.2.1

/-! ## Lemmas about the connection registry -/

/-- Lookup at a head entry whose key matches. -/
lemma getClient_cons_pos (p : String × Client) (rest : Registry) (id : String)
    (h : (p.1 == id) = true) : getClient (p :: rest) id = some p.2 := by
  simp [getClient, List.find?, h]

/-- Lookup skips a head entry whose key differs. -/
lemma getClient_cons_neg (p : String × Client) (rest : Registry) (id : String)
    (h : (p.1 == id) = false) : getClient (p :: rest) id = getClient rest id := by
  simp [getClient, List.find?, h]

/-- Lookup fails when the key is on no entry. -/
lemma getClient_eq_none_of_not_mem (id : String) :
    ∀ reg : Registry, id ∉ reg.map Prod.fst → getClient reg id = none := by
  intro reg
  induction reg with
  | nil => intro _; rfl
  | cons p rest ih =>
    intro h
    simp only [List.map_cons, List.mem_cons, not_or] at h
    have hpi : (p.1 == id) = false := by
      simp only [beq_eq_false_iff_ne, ne_eq]
      exact fun he => h.1 he.symm
    rw [getClient_cons_neg p rest id hpi]
    exact ih h.2

/-- Updating an absent key is a no-op. -/
lemma updateFirst_of_none (id : String) (f : Client → Client) :
    ∀ reg : Registry, getClient reg id = none → updateFirst reg id f = reg := by
  intro reg
  induction reg with
  | nil => intro _; rfl
  | cons p rest ih =>
    intro h
    cases hpi : (p.1 == id) with
    | true => rw [getClient_cons_pos p rest id hpi] at h; cases h
    | false =>
      rw [getClient_cons_neg p rest id hpi] at h
      simp only [updateFirst]
      rw [if_neg (by simp [hpi]), ih h]

/-- Updating a present key rewrites exactly that entry. -/
lemma getClient_updateFirst_self (id : String) (f : Client → Client) :
    ∀ (reg : Registry) (c : Client), getClient reg id = some c →
      getClient (updateFirst reg id f) id = some (f c) := by
  intro reg
  induction reg with
  | nil => intro c h; cases h
  | cons p rest ih =>
    intro c h
    cases hpi : (p.1 == id) with
    | true =>
      rw [getClient_cons_pos p rest id hpi] at h
      injection h with h
      simp only [updateFirst]
      rw [if_pos hpi, getClient_cons_pos (p.1, f p.2) rest id hpi, h]
    | false =>
      rw [getClient_cons_neg p rest id hpi] at h
      simp only [updateFirst]
      rw [if_neg (by simp [hpi]), getClient_cons_neg _ _ _ hpi]
      exact ih c h

/-- Updating one key leaves every other key's lookup unchanged. -/
lemma getClient_updateFirst_ne (id j : String) (f : Client → Client) (hne : j ≠ id) :
    ∀ reg : Registry, getClient (updateFirst reg id f) j = getClient reg j := by
  intro reg
  induction reg with
  | nil => rfl
  | cons p rest ih =>
    cases hpi : (p.1 == id) with
    | true =>
      simp only [updateFirst]
      rw [if_pos hpi]
      have hpj : (p.1 == j) = false := by
        simp only [beq_eq_false_iff_ne, ne_eq]
        intro he
        exact hne (by
          have : p.1 = id := by simpa using hpi
          rw [← he, this])
      rw [getClient_cons_neg (p.1, f p.2) rest j hpj, getClient_cons_neg p rest j hpj]
    | false =>
      simp only [updateFirst]
      rw [if_neg (by simp [hpi])]
      cases hpj : (p.1 == j) with
      | true =>
        rw [getClient_cons_pos p (updateFirst rest id f) j hpj,
            getClient_cons_pos p rest j hpj]
      | false =>
        rw [getClient_cons_neg p (updateFirst rest id f) j hpj,
            getClient_cons_neg p rest j hpj, ih]

/-- Lookup of a freshly appended entry. -/
lemma getClient_append_new (id : String) (c : Client) :
    ∀ reg : Registry, getClient reg id = none →
      getClient (reg ++ [(id, c)]) id = some c := by
  intro reg
  induction reg with
  | nil => intro _; simp [getClient]
  | cons p rest ih =>
    intro h
    cases hpi : (p.1 == id) with
    | true => rw [getClient_cons_pos p rest id hpi] at h; cases h
    | false =>
      rw [getClient_cons_neg p rest id hpi] at h
      rw [List.cons_append, getClient_cons_neg _ _ _ hpi]
      exact ih h

/-- handleJoin on an unknown client returns unchanged with notFound. -/
lemma handleJoin_notFound_eq (reg : Registry) (id raw : String) (now : Int)
    (hg : getClient reg id = none) :
    handleJoin reg id raw now = (reg, .notFound) := by
  unfold handleJoin
  rw [hg]

/-- handleJoin with an invalid name returns unchanged with the
validation error. -/
lemma handleJoin_invalid_eq (reg : Registry) (id raw : String) (now : Int) (e : String)
    (c : Client) (hg : getClient reg id = some c) (hv : validateUsername raw = .error e) :
    handleJoin reg id raw now = (reg, .invalid e) := by
  unfold handleJoin
  rw [hg, hv]

/-- handleJoin with a valid but taken name returns unchanged with
taken. -/
lemma handleJoin_taken_eq (reg : Registry) (id raw : String) (now : Int) (t : String)
    (c : Client) (hg : getClient reg id = some c) (hv : validateUsername raw = .ok t)
    (ht : isUsernameTaken reg (sanitize t) = true) :
    handleJoin reg id raw now = (reg, .taken) := by
  unfold handleJoin
  rw [hg, hv]
  dsimp only
  rw [ht, if_pos rfl]

/-- handleJoin with a valid, unused name stores it via setUsername. -/
lemma handleJoin_ok_eq (reg : Registry) (id raw : String) (now : Int) (t : String)
    (c : Client) (hg : getClient reg id = some c) (hv : validateUsername raw = .ok t)
    (ht : isUsernameTaken reg (sanitize t) = false) :
    handleJoin reg id raw now =
      ((setUsername reg id (sanitize t) now).1, .ok (sanitize t)) := by
  unfold handleJoin
  rw [hg, hv]
  dsimp only
  rw [ht, if_neg (by simp)]

/-! ## Claim theorems: join rejection semantics (setName / handleJoin) -/

/-- C5 counterexample: the only connection holds the name Ana; its own
re-join with Ana is rejected as taken although no other connection holds
the name — isUsernameTaken does not exempt the joining connection. -/
theorem name_taken_self_counterexample :
    handleJoin regAna "c1" "Ana" 5 = (regAna, .taken) ∧
    (∀ p ∈ regAna, p.1 = "c1" ∨ p.2.username ≠ some "Ana") := by
  constructor
  · rfl
  · decide

/-- C5 amended: setUsername fails when the id is unknown, and a join by
a known client with a valid name is rejected as taken exactly when any
registered connection — including the joining one itself — already holds
the sanitized trimmed name. -/
theorem set_name_semantics :
    (∀ (reg : Registry) (id n : String) (now : Int),
      getClient reg id = none → setUsername reg id n now = (reg, false)) ∧
    (∀ (reg : Registry) (id raw : String) (now : Int) (t : String),
      getClient reg id ≠ none → validateUsername raw = .ok t →
      ((handleJoin reg id raw now).2 = .taken ↔
        isUsernameTaken reg (sanitize t) = true)) := by
  constructor
  · intro reg id n now h
    simp only [setUsername, h]
  · intro reg id raw now t hid hv
    simp only [handleJoin]
    cases hg : getClient reg id with
    | none => exact absurd hg hid
    | some c =>
      rw [hv]
      cases ht : isUsernameTaken reg (sanitize t) with
      | true => simp [ht]
      | false => simp [ht]

/-- Witness: setUsername on an empty registry fails, and the self-rejoin
of Ana is rejected as taken exactly because the name is registered. -/
theorem set_name_semantics_witness :
    setUsername [] "c1" "Ana" 0 = ([], false) ∧
    ((handleJoin regAna "c1" "Ana" 5).2 = .taken ↔
      isUsernameTaken regAna (sanitize "Ana") = true) :=
  ⟨set_name_semantics.1 [] "c1" "Ana" 0 rfl,
   set_name_semantics.2 regAna "c1" "Ana" 5 "Ana" (by decide) rfl⟩

/-! ## Claim theorems: name lifecycle (immutability) -/

/-- C6 counterexample: the connection c1 holds the name Ana; a second
join request with the unused name Bob succeeds and changes the stored
name — the display name is not immutable after the first join. -/
theorem name_immutability_counterexample :
    (getClient regAna "c1").map Client.username = some (some "Ana") ∧
    (handleJoin regAna "c1" "Bob" 7).2 = .ok "Bob" ∧
    (getClient (handleJoin regAna "c1" "Bob" 7).1 "c1").map Client.username
      = some (some "Bob") := by
  refine ⟨rfl, rfl, rfl⟩

/-- C6 amended: a connection's name is null at addClient time and only a
successful join changes it: a join leaves every other connection's entry
untouched, the joining connection's name either stays or becomes the
sanitized trimmed requested name (possible only when that name was not
in use), and touch-style updates (updateActivity) never change a stored
name. A later successful join with an unused valid name may therefore
rename the connection; the name never reverts to null. -/
theorem name_lifecycle :
    (∀ (reg : Registry) (newId ip : String) (now : Int),
      getClient reg newId = none →
      getClient (addClient reg newId ip now) newId =
        some { username := none, ip := ip, connectedAt := now,
               lastActivity := now, wsOpen := true }) ∧
    (∀ (reg : Registry) (id raw : String) (now : Int) (j : String), j ≠ id →
      getClient (handleJoin reg id raw now).1 j = getClient reg j) ∧
    (∀ (reg : Registry) (id raw : String) (now : Int) (c c2 : Client),
      getClient reg id = some c →
      getClient (handleJoin reg id raw now).1 id = some c2 →
      c2.username = c.username ∨
      ∃ t, validateUsername raw = .ok t ∧ c2.username = some (sanitize t) ∧
        isUsernameTaken reg (sanitize t) = false) ∧
    (∀ (reg : Registry) (id : String) (now : Int) (j : String),
      (getClient (updateActivity reg id now) j).map Client.username =
        (getClient reg j).map Client.username) := by
  refine ⟨?_, ?_, ?_, ?_⟩
  · intro reg newId ip now h
    exact getClient_append_new newId _ reg h
  · intro reg id raw now j hne
    cases hg : getClient reg id with
    | none => rw [handleJoin_notFound_eq reg id raw now hg]
    | some c =>
      cases hv : validateUsername raw with
      | error e => rw [handleJoin_invalid_eq reg id raw now e c hg hv]
      | ok t =>
        cases ht : isUsernameTaken reg (sanitize t) with
        | true => rw [handleJoin_taken_eq reg id raw now t c hg hv ht]
        | false =>
          rw [handleJoin_ok_eq reg id raw now t c hg hv ht]
          simp only [setUsername, hg]
          exact getClient_updateFirst_ne id j _ hne reg
  · intro reg id raw now c c2 hc hc2
    cases hv : validateUsername raw with
    | error e =>
      rw [handleJoin_invalid_eq reg id raw now e c hc hv] at hc2
      dsimp only at hc2
      rw [hc] at hc2
      injection hc2 with h
      exact Or.inl (by rw [h])
    | ok t =>
      cases ht : isUsernameTaken reg (sanitize t) with
      | true =>
        rw [handleJoin_taken_eq reg id raw now t c hc hv ht] at hc2
        dsimp only at hc2
        rw [hc] at hc2
        injection hc2 with h
        exact Or.inl (by rw [h])
      | false =>
        rw [handleJoin_ok_eq reg id raw now t c hc hv ht] at hc2
        dsimp only at hc2
        simp only [setUsername, hc] at hc2
        rw [getClient_updateFirst_self id _ reg c hc] at hc2
        injection hc2 with h
        exact Or.inr ⟨t, rfl, by rw [← h], ht⟩
  · intro reg id now j
    by_cases hne : j = id
    · subst hne
      cases hg : getClient reg j with
      | none =>
        rw [updateActivity, updateFirst_of_none j _ reg hg, hg]
      | some c =>
        rw [updateActivity, getClient_updateFirst_self j _ reg c hg]
        rfl
    · rw [updateActivity, getClient_updateFirst_ne id j _ hne reg]

/-- Witness: the four name-lifecycle facts at concrete registries. -/
theorem name_lifecycle_witness :
    getClient (addClient [] "c1" "unknown" 0) "c1" =
      some { username := none, ip := "unknown", connectedAt := 0,
             lastActivity := 0, wsOpen := true } ∧
    getClient (handleJoin regAna "c1" "Bob" 7).1 "c2" = getClient regAna "c2" ∧
    ((anaClient.username = anaClient.username ∨
      ∃ t, validateUsername "Ana" = .ok t ∧ anaClient.username = some (sanitize t) ∧
        isUsernameTaken regAna (sanitize t) = false)) ∧
    (getClient (updateActivity regAna "c1" 9) "c1").map Client.username =
      (getClient regAna "c1").map Client.username := by
  refine ⟨name_lifecycle.1 [] "c1" "unknown" 0 rfl,
          name_lifecycle.2.1 regAna "c1" "Bob" 7 "c2" (by decide), ?_, ?_⟩
  · have h := name_lifecycle.2.2.1 regAna "c1" "Ana" 5 anaClient anaClient rfl
    exact h (by rfl)
  · exact name_lifecycle.2.2.2 regAna "c1" 9 "c1"

/-! ## Lemmas about activeNames and the uniqueness invariant -/

/-- The roster names of a cons whose head is named. -/
lemma activeNames_cons_some {p : String × Client} {rest : Registry} {v : String}
    (h : p.2.username = some v) : activeNames (p :: rest) = v :: activeNames rest := by
  simp [activeNames, List.filterMap_cons, h]

/-- The roster names of a cons whose head is anonymous. -/
lemma activeNames_cons_none {p : String × Client} {rest : Registry}
    (h : p.2.username = none) : activeNames (p :: rest) = activeNames rest := by
  simp [activeNames, List.filterMap_cons, h]

/-- A name present in the tail roster is present in the whole roster. -/
lemma mem_activeNames_cons_of_mem {p : String × Client} {rest : Registry} {x : String}
    (h : x ∈ activeNames rest) : x ∈ activeNames (p :: rest) := by
  cases hu : p.2.username with
  | some v => rw [activeNames_cons_some hu]; exact List.mem_cons_of_mem _ h
  | none => rw [activeNames_cons_none hu]; exact h

/-- isUsernameTaken is exactly membership in the roster names. -/
lemma not_taken_iff (reg : Registry) (u : String) :
    isUsernameTaken reg u = false ↔ u ∉ activeNames reg := by
  rw [← Bool.not_eq_true]
  simp [isUsernameTaken, activeNames, List.any_eq_true, List.mem_filterMap]

/-- Every name in the roster after an in-place rename is the new name or
an old roster name. -/
lemma mem_activeNames_update (id u : String) (f : Client → Client)
    (hf : ∀ c, (f c).username = some u) :
    ∀ (reg : Registry) (x : String),
      x ∈ activeNames (updateFirst reg id f) → x = u ∨ x ∈ activeNames reg := by
  intro reg
  induction reg with
  | nil => intro x hx; exact Or.inr hx
  | cons p rest ih =>
    intro x hx
    simp only [updateFirst] at hx
    cases hpi : (p.1 == id) with
    | true =>
      rw [if_pos hpi] at hx
      rw [activeNames_cons_some (hf p.2)] at hx
      rcases List.mem_cons.mp hx with rfl | hx2
      · exact Or.inl rfl
      · exact Or.inr (mem_activeNames_cons_of_mem hx2)
    | false =>
      rw [if_neg (by simp [hpi])] at hx
      cases hu : p.2.username with
      | some v =>
        rw [activeNames_cons_some hu] at hx
        rcases List.mem_cons.mp hx with rfl | hx2
        · exact Or.inr (by rw [activeNames_cons_some hu]; exact List.mem_cons_self _ _)
        · rcases ih x hx2 with h1 | h2
          · exact Or.inl h1
          · exact Or.inr (mem_activeNames_cons_of_mem h2)
      | none =>
        rw [activeNames_cons_none hu] at hx
        rcases ih x hx with h1 | h2
        · exact Or.inl h1
        · exact Or.inr (mem_activeNames_cons_of_mem h2)

/-- Renaming a client to a name nobody holds preserves distinctness of
the roster names. -/
lemma nodup_activeNames_update (id u : String) (f : Client → Client)
    (hf : ∀ c, (f c).username = some u) :
    ∀ reg : Registry, isUsernameTaken reg u = false → (activeNames reg).Nodup →
      (activeNames (updateFirst reg id f)).Nodup := by
  intro reg
  induction reg with
  | nil => intro _ h; exact h
  | cons p rest ih =>
    intro htaken hnodup
    have hu_notin : u ∉ activeNames (p :: rest) := (not_taken_iff _ u).mp htaken
    have htaken_rest : isUsernameTaken rest u = false := by
      rw [not_taken_iff]
      exact fun hmem => hu_notin (mem_activeNames_cons_of_mem hmem)
    simp only [updateFirst]
    cases hpi : (p.1 == id) with
    | true =>
      rw [if_pos rfl]
      rw [activeNames_cons_some (hf p.2)]
      rw [List.nodup_cons]
      constructor
      · exact fun hmem => hu_notin (mem_activeNames_cons_of_mem hmem)
      · cases hu : p.2.username with
        | some v =>
          rw [activeNames_cons_some hu] at hnodup
          exact (List.nodup_cons.mp hnodup).2
        | none =>
          rw [activeNames_cons_none hu] at hnodup
          exact hnodup
    | false =>
      rw [if_neg (by simp [hpi])]
      cases hu : p.2.username with
      | none =>
        rw [activeNames_cons_none hu] at hnodup ⊢
        exact ih htaken_rest hnodup
      | some v =>
        rw [activeNames_cons_some hu] at hnodup ⊢
        rw [List.nodup_cons] at hnodup ⊢
        obtain ⟨hv_notin, hrest_nodup⟩ := hnodup
        refine ⟨?_, ih htaken_rest hrest_nodup⟩
        intro hvmem
        rcases mem_activeNames_update id u f hf rest v hvmem with rfl | h2
        · exact hu_notin (by rw [activeNames_cons_some hu]; exact List.mem_cons_self _ _)
        · exact hv_notin h2

/-- addClient adds an anonymous entry and leaves the roster names as
they were. -/
lemma activeNames_addClient (reg : Registry) (id ip : String) (now : Int) :
    activeNames (addClient reg id ip now) = activeNames reg := by
  simp [addClient, activeNames, List.filterMap_append]

/-- A guarded setUsername (name not taken) preserves distinct roster
names. -/
lemma nodup_setUsername (reg : Registry) (id name : String) (now : Int)
    (htaken : isUsernameTaken reg name = false)
    (h : (activeNames reg).Nodup) : (activeNames (setUsername reg id name now).1).Nodup := by
  unfold setUsername
  cases hg : getClient reg id with
  | none => exact h
  | some c =>
    dsimp only
    exact nodup_activeNames_update id name _ (fun cl => rfl) reg htaken h

/-- removeClient yields a sublist of the registry. -/
lemma removeClient_sublist (reg : Registry) (id : String) :
    (removeClient reg id).1.Sublist reg := by
  unfold removeClient
  cases hg : getClient reg id with
  | some c =>
    dsimp only
    exact List.eraseP_sublist _
  | none => exact List.Sublist.refl _

/-- Folded removals yield a sublist of the registry. -/
lemma foldl_remove_sublist :
    ∀ (ids : List String) (reg : Registry),
      (ids.foldl (fun r cid => (removeClient r cid).1) reg).Sublist reg := by
  intro ids
  induction ids with
  | nil => intro reg; exact List.Sublist.refl _
  | cons i rest ih =>
    intro reg
    rw [List.foldl_cons]
    exact (ih _).trans (removeClient_sublist reg i)

/-! ## Claim theorem: name uniqueness invariant -/

/-- C1: starting from a registry whose non-null names are pairwise
distinct, each of addClient, guarded setUsername (as handleJoin calls
it, post isUsernameTaken check), handleJoin itself, removeClient and
cleanupDeadConnections leaves the non-null names pairwise distinct. -/
theorem name_uniqueness_preserved :
    ∀ reg : Registry, (activeNames reg).Nodup →
      (∀ (id ip : String) (now : Int), (activeNames (addClient reg id ip now)).Nodup) ∧
      (∀ (id name : String) (now : Int), isUsernameTaken reg name = false →
        (activeNames (setUsername reg id name now).1).Nodup) ∧
      (∀ (id raw : String) (now : Int), (activeNames (handleJoin reg id raw now).1).Nodup) ∧
      (∀ id : String, (activeNames (removeClient reg id).1).Nodup) ∧
      (∀ now : Int, (activeNames (cleanupDeadConnections reg now).1).Nodup) := by
  intro reg h
  refine ⟨?_, ?_, ?_, ?_, ?_⟩
  · intro id ip now
    rw [activeNames_addClient]
    exact h
  · intro id name now htaken
    exact nodup_setUsername reg id name now htaken h
  · intro id raw now
    cases hg : getClient reg id with
    | none => rw [handleJoin_notFound_eq reg id raw now hg]; exact h
    | some c =>
      cases hv : validateUsername raw with
      | error e => rw [handleJoin_invalid_eq reg id raw now e c hg hv]; exact h
      | ok t =>
        cases ht : isUsernameTaken reg (sanitize t) with
        | true => rw [handleJoin_taken_eq reg id raw now t c hg hv ht]; exact h
        | false =>
          rw [handleJoin_ok_eq reg id raw now t c hg hv ht]
          exact nodup_setUsername reg id (sanitize t) now ht h
  · intro id
    exact List.Nodup.sublist (List.Sublist.filterMap _ (removeClient_sublist reg id)) h
  · intro now
    exact List.Nodup.sublist (List.Sublist.filterMap _ (foldl_remove_sublist _ reg)) h

/-- Witness: the uniqueness invariant after a concrete successful join
on the one-user registry. -/
theorem name_uniqueness_preserved_witness :
    (activeNames (handleJoin regAna "c1" "Bob" 7).1).Nodup :=
  (name_uniqueness_preserved regAna (by decide)).2.2.1 "c1" "Bob" 7

/-! ## Lemmas for the disconnect behaviour -/

/-- The roster entries of a cons whose head is named. -/
lemma getActiveUsers_cons_some {p : String × Client} {rest : Registry} {v : String}
    (h : p.2.username = some v) :
    getActiveUsers (p :: rest) =
      { username := v, connectedAt := p.2.connectedAt } :: getActiveUsers rest := by
  simp [getActiveUsers, List.filterMap_cons, h]

/-- The roster entries of a cons whose head is anonymous. -/
lemma getActiveUsers_cons_none {p : String × Client} {rest : Registry}
    (h : p.2.username = none) : getActiveUsers (p :: rest) = getActiveUsers rest := by
  simp [getActiveUsers, List.filterMap_cons, h]

/-- The roster names are the usernames of the roster entries. -/
lemma activeNames_eq_map :
    ∀ reg : Registry, activeNames reg = (getActiveUsers reg).map ActiveUser.username := by
  intro reg
  induction reg with
  | nil => rfl
  | cons p rest ih =>
    cases hu : p.2.username with
    | some v =>
      rw [activeNames_cons_some hu, getActiveUsers_cons_some hu, List.map_cons, ih]
    | none => rw [activeNames_cons_none hu, getActiveUsers_cons_none hu, ih]

/-- The name of a registered named client is in the roster names. -/
lemma mem_activeNames_of_getClient (id u : String) :
    ∀ (reg : Registry) (c : Client), getClient reg id = some c → c.username = some u →
      u ∈ activeNames reg := by
  intro reg
  induction reg with
  | nil => intro c hc; cases hc
  | cons p rest ih =>
    intro c hc hu
    cases hpi : (p.1 == id) with
    | true =>
      rw [getClient_cons_pos p rest id hpi] at hc
      injection hc with hc
      have hpu : p.2.username = some u := by rw [hc]; exact hu
      rw [activeNames_cons_some hpu]
      exact List.mem_cons_self _ _
    | false =>
      rw [getClient_cons_neg p rest id hpi] at hc
      exact mem_activeNames_cons_of_mem (ih c hc hu)

/-- Erasure at a cons whose head key matches. -/
lemma erasePKey_cons_pos (id : String) (p : String × Client) (rest : Registry)
    (h : (p.1 == id) = true) :
    (p :: rest).eraseP (fun q => q.1 == id) = rest := by
  simp [List.eraseP_cons, h]

/-- Erasure at a cons whose head key differs. -/
lemma erasePKey_cons_neg (id : String) (p : String × Client) (rest : Registry)
    (h : (p.1 == id) = false) :
    (p :: rest).eraseP (fun q => q.1 == id) = p :: rest.eraseP (fun q => q.1 == id) := by
  simp [List.eraseP_cons, h]

/-- Filtering the departing user's name out of the roster equals the
roster of the registry with that connection removed, given distinct
names. -/
lemma filter_getActiveUsers_erase (id u : String) :
    ∀ (reg : Registry) (c : Client), getClient reg id = some c → c.username = some u →
      (activeNames reg).Nodup →
      (getActiveUsers reg).filter (fun a => !(a.username == u)) =
        getActiveUsers (reg.eraseP (fun p => p.1 == id)) := by
  intro reg
  induction reg with
  | nil => intro c hc; cases hc
  | cons p rest ih =>
    intro c hc hu hnodup
    cases hpi : (p.1 == id) with
    | true =>
      rw [getClient_cons_pos p rest id hpi] at hc
      injection hc with hc
      have hpu : p.2.username = some u := by rw [hc]; exact hu
      rw [erasePKey_cons_pos id p rest hpi, getActiveUsers_cons_some hpu, List.filter_cons]
      have hnotin : u ∉ activeNames rest := by
        rw [activeNames_cons_some hpu] at hnodup
        exact (List.nodup_cons.mp hnodup).1
      rw [if_neg (by simp)]
      rw [List.filter_eq_self.mpr ?_]
      intro a ha
      have hmem : a.username ∈ activeNames rest := by
        rw [activeNames_eq_map]
        exact List.mem_map_of_mem _ ha
      simp only [Bool.not_eq_eq_eq_not, Bool.not_true, beq_eq_false_iff_ne, ne_eq]
      intro he
      rw [he] at hmem
      exact hnotin hmem
    | false =>
      rw [getClient_cons_neg p rest id hpi] at hc
      rw [erasePKey_cons_neg id p rest hpi]
      cases hpv : p.2.username with
      | none =>
        rw [getActiveUsers_cons_none hpv, getActiveUsers_cons_none hpv]
        rw [activeNames_cons_none hpv] at hnodup
        exact ih c hc hu hnodup
      | some v =>
        rw [getActiveUsers_cons_some hpv, getActiveUsers_cons_some hpv, List.filter_cons]
        have humem : u ∈ activeNames rest := mem_activeNames_of_getClient id u rest c hc hu
        rw [activeNames_cons_some hpv] at hnodup
        obtain ⟨hv_notin, hrest_nodup⟩ := List.nodup_cons.mp hnodup
        have hvne : v ≠ u := fun he => hv_notin (he ▸ humem)
        rw [if_pos (by simp [hvne])]
        rw [ih c hc hu hrest_nodup]

/-- When a broadcast call does pass an exclude id (as the join and chat
paths do), that id is never among the targets. -/
lemma self_not_in_broadcastTargets (id : String) (reg : Registry) :
    id ∉ broadcastTargets reg (some id) := by
  intro hmem
  simp only [broadcastTargets, List.mem_map] at hmem
  obtain ⟨p, hp, hpid⟩ := hmem
  rw [List.mem_filter] at hp
  rw [hpid] at hp
  simp at hp

/-- Targets of an exclusion-free broadcast at a cons: the head is kept
exactly when its socket is open. -/
lemma broadcastTargets_none_cons (p : String × Client) (rest : Registry) :
    broadcastTargets (p :: rest) none =
      if p.2.wsOpen = true then p.1 :: broadcastTargets rest none
      else broadcastTargets rest none := by
  have hb : ((none : Option String) == some p.1) = false := rfl
  simp only [broadcastTargets, List.filter_cons, hb]
  cases hw : p.2.wsOpen with
  | true => simp [hw]
  | false => simp [hw]

/-- A registered client with an open socket is a target of an
exclusion-free broadcast. -/
lemma mem_broadcastTargets_of_open (id : String) :
    ∀ (reg : Registry) (c : Client), getClient reg id = some c → c.wsOpen = true →
      id ∈ broadcastTargets reg none := by
  intro reg
  induction reg with
  | nil => intro c hc; cases hc
  | cons p rest ih =>
    intro c hc hw
    cases hpi : (p.1 == id) with
    | true =>
      rw [getClient_cons_pos p rest id hpi] at hc
      injection hc with hc
      rw [broadcastTargets_none_cons]
      have hpw : p.2.wsOpen = true := by rw [hc]; exact hw
      rw [if_pos hpw]
      have hpid : p.1 = id := by simpa using hpi
      rw [hpid]
      exact List.mem_cons_self _ _
    | false =>
      rw [getClient_cons_neg p rest id hpi] at hc
      rw [broadcastTargets_none_cons]
      cases hpw : p.2.wsOpen with
      | true =>
        rw [if_pos rfl]
        exact List.mem_cons_of_mem _ (ih c hc hw)
      | false =>
        rw [if_neg (by simp)]
        exact ih c hc hw

/-- After erasing the entry with a key, that key resolves to no client
(keys being distinct). -/
lemma getClient_eraseP_none (id : String) :
    ∀ reg : Registry, (reg.map Prod.fst).Nodup →
      getClient (reg.eraseP (fun p => p.1 == id)) id = none := by
  intro reg
  induction reg with
  | nil => intro _; rfl
  | cons p rest ih =>
    intro h
    rw [List.map_cons, List.nodup_cons] at h
    cases hpi : (p.1 == id) with
    | true =>
      rw [erasePKey_cons_pos id p rest hpi]
      apply getClient_eq_none_of_not_mem
      have hpid : p.1 = id := by simpa using hpi
      rw [← hpid]
      exact h.1
    | false =>
      rw [erasePKey_cons_neg id p rest hpi]
      rw [getClient_cons_neg p _ id hpi]
      exact ih h.2

/-- handleDisconnect for an unknown id broadcasts nothing and leaves the
registry unchanged. -/
lemma handleDisconnect_none_eq (reg : Registry) (id : String) (now : Int)
    (hg : getClient reg id = none) :
    handleDisconnect reg id now = (reg, none) := by
  unfold handleDisconnect removeClient
  rw [hg]

/-! ## Claim theorems: disconnect behaviour -/

/-- C8 counterexample: in the two-user registry the named, open
connection c1 disconnects; the userLeft broadcast carries no exclusion
(the source passes no exclude argument to broadcast) and c1 itself is
among the targets of that exclusion-free broadcast on the pre-removal
registry — the leaver's id is not excluded from the recipients. -/
theorem disconnect_exclusion_counterexample :
    (handleDisconnect regTwo "c1" 9).2 =
      some { username := "Ana", message := "Ana ha abandonado el chat", timestamp := 9,
             users := [{ username := "Bob", connectedAt := 1 }], excludeId := none } ∧
    "c1" ∈ broadcastTargets regTwo none := by
  constructor
  · rfl
  · decide

/-- C8 amended: when a named connection disconnects, handleDisconnect
emits one userLeft broadcast whose roster equals the active users of the
registry minus that connection, sent with no excluded recipient — the
leaver is itself a target whenever its socket is still open, being
skipped only by the readyState check — and the registry afterwards is
the registry with the connection removed; a second handleDisconnect for
the same id performs no broadcast and leaves the registry unchanged. -/
theorem disconnect_behaviour :
    ∀ (reg : Registry) (id : String) (now later : Int) (c : Client) (u : String),
      (reg.map Prod.fst).Nodup →
      (activeNames reg).Nodup →
      getClient reg id = some c →
      c.username = some u →
      handleDisconnect reg id now =
        ((removeClient reg id).1,
         some { username := u, message := u ++ " ha abandonado el chat", timestamp := now,
                users := getActiveUsers (removeClient reg id).1, excludeId := none }) ∧
      (c.wsOpen = true → id ∈ broadcastTargets reg none) ∧
      handleDisconnect (handleDisconnect reg id now).1 id later
        = ((handleDisconnect reg id now).1, none) := by
  intro reg id now later c u hkeys hnames hc hu
  have hrm : (removeClient reg id).1 = reg.eraseP (fun p => p.1 == id) := by
    unfold removeClient
    rw [hc]
  have husers : (getActiveUsers reg).filter (fun a => !(a.username == u)) =
      getActiveUsers (removeClient reg id).1 := by
    rw [hrm]
    exact filter_getActiveUsers_erase id u reg c hc hu hnames
  have hd : handleDisconnect reg id now =
      ((removeClient reg id).1,
       some { username := u, message := u ++ " ha abandonado el chat", timestamp := now,
              users := getActiveUsers (removeClient reg id).1, excludeId := none }) := by
    unfold handleDisconnect
    rw [hc]
    dsimp only
    rw [hu]
    dsimp only
    rw [husers]
  have hnone : getClient (removeClient reg id).1 id = none := by
    rw [hrm]
    exact getClient_eraseP_none id reg hkeys
  refine ⟨hd, fun hw => mem_broadcastTargets_of_open id reg c hc hw, ?_⟩
  rw [hd]
  exact handleDisconnect_none_eq (removeClient reg id).1 id later hnone

/-- Witness: the disconnect of the named open client c1 from the
two-user registry, which is itself a broadcast target. -/
theorem disconnect_behaviour_witness :
    handleDisconnect regTwo "c1" 9 =
      ((removeClient regTwo "c1").1,
       some { username := "Ana", message := "Ana" ++ " ha abandonado el chat", timestamp := 9,
              users := getActiveUsers (removeClient regTwo "c1").1,
              excludeId := none }) ∧
    "c1" ∈ broadcastTargets regTwo none ∧
    handleDisconnect (handleDisconnect regTwo "c1" 9).1 "c1" 11
      = ((handleDisconnect regTwo "c1" 9).1, none) := by
  obtain ⟨h1, h2, h3⟩ :=
    disconnect_behaviour regTwo "c1" 9 11 anaClient "Ana" (by decide) (by decide) rfl rfl
  exact ⟨h1, h2 rfl, h3⟩

/-! ## Lemmas for the delivery queue -/

/-- Invariant of every reachable controller state: the number of live
drain loops is 1 exactly when the isProcessingQueue flag is up (else 0),
and the broadcasts performed so far followed by the pending queue equal
the full enqueue history in order. -/
lemma queue_invariant :
    ∀ s : QState, QReachable s →
      s.activeDrains = (if s.isProcessingQueue then 1 else 0) ∧
      s.broadcastLog ++ s.messageQueue = s.enqueued := by
  intro s h
  induction h with
  | refl => exact ⟨rfl, rfl⟩
  | @tail b c hab hbc ih =>
    obtain ⟨ih1, ih2⟩ := ih
    cases hbc with
    | enqueueIdle m hflag =>
      rw [hflag] at ih1
      simp at ih1
      constructor
      · simp [ih1]
      · simp only
        rw [← List.append_assoc, ih2]
    | enqueueBusy m hflag =>
      constructor
      · simpa using ih1
      · simp only
        rw [← List.append_assoc, ih2]
    | broadcastStep m rest hact hq =>
      constructor
      · simpa using ih1
      · simp only
        rw [hq] at ih2
        rw [List.append_assoc]
        simpa using ih2
    | finishDrain hact hq =>
      refine ⟨?_, by simpa using ih2⟩
      cases hproc : b.isProcessingQueue with
      | true =>
        rw [hproc] at ih1
        simp at ih1
        simp [ih1]
      | false =>
        rw [hproc] at ih1
        simp at ih1
        simp [ih1]

/-! ## Claim theorem: FIFO delivery with a single drain -/

/-- C3: in every reachable controller state at most one drain loop is
alive, and the broadcasts already performed followed by the still-queued
messages equal the enqueue history in order — so messages are broadcast
exactly in enqueue order, message N+1 never before message N; moreover
any step that takes the inter-message delay leaves a non-empty queue
(the delay is taken only when messages remain). -/
theorem fifo_single_drain :
    (∀ s : QState, QReachable s →
      s.activeDrains ≤ 1 ∧ s.broadcastLog ++ s.messageQueue = s.enqueued) ∧
    (∀ s s2 : QState, QStep s s2 → s.delaysTaken < s2.delaysTaken →
      s2.messageQueue ≠ []) := by
  constructor
  · intro s h
    obtain ⟨h1, h2⟩ := queue_invariant s h
    refine ⟨?_, h2⟩
    rw [h1]
    cases s.isProcessingQueue <;> simp
  · intro s s2 hstep hdel
    cases hstep with
    | enqueueIdle m hflag => simp at hdel
    | enqueueBusy m hflag => simp at hdel
    | finishDrain hact hq => simp at hdel
    | broadcastStep m rest hact hq =>
      by_cases hrest : rest = []
      · simp [hrest] at hdel
      · simpa using hrest

/-- Witness: a concrete three-step run (start a drain with one message,
enqueue a second while draining, broadcast the first with a delay) is
reachable and satisfies the ordering facts; the delay-taking step left a
non-empty queue. -/
theorem fifo_single_drain_witness :
    (QState.mk [msgMundo] true 1 [msgHola] 1 [msgHola, msgMundo]).activeDrains ≤ 1 ∧
    (QState.mk [msgMundo] true 1 [msgHola] 1 [msgHola, msgMundo]).broadcastLog ++
        (QState.mk [msgMundo] true 1 [msgHola] 1 [msgHola, msgMundo]).messageQueue =
      (QState.mk [msgMundo] true 1 [msgHola] 1 [msgHola, msgMundo]).enqueued ∧
    (QState.mk [msgMundo] true 1 [msgHola] 1 [msgHola, msgMundo]).messageQueue ≠ [] := by
  have h1 : QStep QState.init (QState.mk [msgHola] true 1 [] 0 [msgHola]) :=
    QStep.enqueueIdle QState.init msgHola rfl
  have h2 : QStep (QState.mk [msgHola] true 1 [] 0 [msgHola])
      (QState.mk [msgHola, msgMundo] true 1 [] 0 [msgHola, msgMundo]) :=
    QStep.enqueueBusy (QState.mk [msgHola] true 1 [] 0 [msgHola]) msgMundo rfl
  have h3 : QStep (QState.mk [msgHola, msgMundo] true 1 [] 0 [msgHola, msgMundo])
      (QState.mk [msgMundo] true 1 [msgHola] 1 [msgHola, msgMundo]) :=
    QStep.broadcastStep (QState.mk [msgHola, msgMundo] true 1 [] 0 [msgHola, msgMundo])
      msgHola [msgMundo] (by decide) rfl
  have hreach : QReachable (QState.mk [msgMundo] true 1 [msgHola] 1 [msgHola, msgMundo]) :=
    Relation.ReflTransGen.tail
      (Relation.ReflTransGen.tail (Relation.ReflTransGen.single h1) h2) h3
  obtain ⟨ha, hb⟩ := fifo_single_drain.1 _ hreach
  exact ⟨ha, hb, fifo_single_drain.2 _ _ h3 (by decide)⟩

end RealTimeChat
